import Mathlib

/-!
Shallow embedding of `src/main.py` of net-ssdp-discover.

Strings are modelled as `List Char`. The Python text primitives used by the
program (`str.splitlines`, `str.strip`, `str.upper`, `str.split(':', 1)`) are
embedded below; `upper` and the whitespace/line-break classes are modelled on
the ASCII range (plus the Latin-1 line breaks Python recognises), which covers
every character the program itself manipulates.
-/

namespace SSDP

abbrev Str := List Char

/-- Line-break characters recognised by Python `str.splitlines`. -/
def isLineBreakChar (c : Char) : Bool :=
  decide (c.toNat = 10 ∨ c.toNat = 11 ∨ c.toNat = 12 ∨ c.toNat = 13 ∨
    c.toNat = 28 ∨ c.toNat = 29 ∨ c.toNat = 30 ∨ c.toNat = 133 ∨
    c.toNat = 8232 ∨ c.toNat = 8233)

/-- Whitespace characters stripped by Python `str.strip()` (ASCII/Latin-1 range). -/
def isPySpace (c : Char) : Bool :=
  decide (c.toNat = 32 ∨ (9 ≤ c.toNat ∧ c.toNat ≤ 13) ∨
    (28 ≤ c.toNat ∧ c.toNat ≤ 31) ∨ c.toNat = 133 ∨ c.toNat = 160)

/-- ASCII upper-casing of one character, as Python `str.upper` acts on ASCII. -/
def upChar (c : Char) : Char :=
  if 97 ≤ c.toNat ∧ c.toNat ≤ 122 then Char.ofNat (c.toNat - 32) else c

/-- Python `str.upper` (ASCII model). -/
def pyUpper (s : Str) : Str := s.map upChar

/-- Python `str.lstrip()`. -/
def stripLeft (s : Str) : Str := s.dropWhile isPySpace

/-- Python `str.rstrip()`. -/
def stripRight (s : Str) : Str := (s.reverse.dropWhile isPySpace).reverse

/-- Python `str.strip()`. -/
def strip (s : Str) : Str := stripRight (stripLeft s)

/-- Worker for `splitlines`; `acc` holds the current line, reversed. -/
def splitlinesGo : Str → Str → List Str
  | [], acc => if acc.isEmpty then [] else [acc.reverse]
  | '\r' :: '\n' :: rest, acc => acc.reverse :: splitlinesGo rest []
  | c :: rest, acc =>
    if isLineBreakChar c then acc.reverse :: splitlinesGo rest []
    else splitlinesGo rest (c :: acc)

/-- Python `str.splitlines()`: `"\r\n"` is one terminator, and trailing
characters after the last terminator form a final line only when nonempty. -/
def splitlines (s : Str) : List Str := splitlinesGo s []

/-- Python `line.split(':', 1)` when `':' in line`: the part before the first
colon and the part after it; `none` when the line has no colon. -/
def splitFirstColon : Str → Option (Str × Str)
  | [] => none
  | c :: rest =>
    if c = ':' then some ([], rest)
    else (splitFirstColon rest).map (fun p => (c :: p.1, p.2))

/-- Python `dict` assignment `m[k] = v`: replace in place when the key is
present (insertion order kept), append otherwise. -/
def dictSet (m : List (Str × Str)) (k v : Str) : List (Str × Str) :=
  if m.any (fun p => p.1 = k) then
    m.map (fun p => if p.1 = k then (k, v) else p)
  else m ++ [(k, v)]

/-- Python `m[k]` / `k in m` combined: the value at key `k`, if present. -/
def dictGet (m : List (Str × Str)) (k : Str) : Option Str :=
  (m.find? (fun p => p.1 = k)).map Prod.snd

/-- One iteration of the header-parsing loop of `receive_ssdp_responses`
(src/main.py lines 98-101): `if ':' in line: key, value = line.split(':', 1);
headers[key.strip().upper()] = value.strip()`. -/
def parseLine (m : List (Str × Str)) (line : Str) : List (Str × Str) :=
  match splitFirstColon line with
  | none => m
  | some p => dictSet m (pyUpper (strip p.1)) (strip p.2)

/-- The full header parse of one datagram (src/main.py lines 97-101). -/
def parseHeaders (s : Str) : List (Str × Str) :=
  (splitlines s).foldl parseLine []

/-- Serialise a header mapping back to text, one `KEY: value` line per entry,
CRLF-terminated, in insertion order. Used to state idempotence of parsing. -/
def renderHeaders (m : List (Str × Str)) : Str :=
  (m.map (fun p => (p.1 ++ (':' :: ' ' :: p.2)) ++ ['\r', '\n'])).flatten

example : parseHeaders ("Location: http://x\r\n").toList =
    [(("LOCATION").toList, ("http://x").toList)] := by decide

example : parseHeaders ("LOCATION:http://x").toList =
    [(("LOCATION").toList, ("http://x").toList)] := by decide

example : splitlines ("a\r\nb\nc").toList =
    [("a").toList, ("b").toList, ("c").toList] := by decide

/-! ## The send side (src/main.py lines 11-72) -/

def SSDP_ADDR : Str := ("239.255.255.250").toList

def SSDP_PORT : Nat := 1900

def SSDP_MX : Nat := 2

def SSDP_ST : Str := ("upnp:rootdevice").toList

def CRLF : Str := ['\r', '\n']

/-- The f-string `ssdp_request` of src/main.py lines 51-58, with the
interpolated constants spelled out exactly as Python formats them. -/
def ssdp_request (search_target : Str) : Str :=
  ("M-SEARCH * HTTP/1.1").toList ++ CRLF ++
  ("HOST: ").toList ++ SSDP_ADDR ++ ':' :: (Nat.repr SSDP_PORT).toList ++ CRLF ++
  ("MAN: \"ssdp:discover\"").toList ++ CRLF ++
  ("MX: ").toList ++ (Nat.repr SSDP_MX).toList ++ CRLF ++
  ("ST: ").toList ++ search_target ++ CRLF ++
  CRLF

/-- One UDP datagram as handed to `sock.sendto`: destination address/port and
the text payload (the UTF-8 encode step is kept at the text level). -/
structure Datagram where
  destAddr : Str
  destPort : Nat
  payload : Str
deriving DecidableEq

/-- The send loop of `send_ssdp_discovery` (src/main.py lines 60-63):
`for i in range(retries): sock.sendto(ssdp_request.encode(), (SSDP_ADDR, SSDP_PORT))`.
The model returns the list of datagrams issued. -/
def send_ssdp_discovery (search_target : Str) (retries : Nat) : List Datagram :=
  (List.range retries).map (fun _ => ⟨SSDP_ADDR, SSDP_PORT, ssdp_request search_target⟩)

/-- The parsed CLI arguments (src/main.py lines 18-32). The flag
`-mx, --max_wait` is a single argparse option: it is both the "MX flag" of the
CLI surface and the `max_wait` receive window. The socket timeout is a float
that never influences any datagram content and is not modelled. -/
structure Args where
  search_target : Str
  max_wait : Nat
  retries : Nat
  verbose : Bool
deriving DecidableEq

/-- The datagrams `main` (src/main.py line 163) causes to be sent for given
CLI arguments: `send_ssdp_discovery(args.search_target, args.retries, args.timeout)`.
`args.max_wait` (the `-mx` flag) is passed only to `receive_ssdp_responses`. -/
def mainSend (a : Args) : List Datagram :=
  send_ssdp_discovery a.search_target a.retries

/-! ## The receive side (src/main.py lines 75-141) -/

def locKey : Str := ("LOCATION").toList

def unavailableMarker : Str := ("Unavailable").toList

/-- Outcome of the `requests.get(location, timeout=5)` call followed by
`raise_for_status()`: either the response body text, or a
`requests.exceptions.RequestException` (any transport error, and any 4xx/5xx
status via `raise_for_status`). -/
inductive FetchResult where
  | success (body : Str)
  | failure
deriving DecidableEq

/-- Outcome of one `sock.recvfrom` call, together with (for a received
datagram) the outcome the descriptor fetch for it would have. `datagram`
carries the already-decoded text (`data.decode('utf-8', errors='ignore')`
never raises). `unexpectedError` is any exception other than
`socket.timeout`/`socket.error` raised inside the loop body. -/
inductive RecvEvent where
  | datagram (ip : Str) (pt : Nat) (d : Str) (f : FetchResult)
  | timeout
  | sockError
  | unexpectedError
deriving DecidableEq

/-- The `response_data` dict built at src/main.py lines 117-123. -/
structure DiscoveryRecord where
  ip_address : Str
  port : Nat
  headers : List (Str × Str)
  device_description : Str
  location : Str
deriving DecidableEq

/-- Processing of one received datagram (src/main.py lines 96-124): parse the
headers; if `'LOCATION' in headers`, fetch the descriptor (a failure is
downgraded to the `"Unavailable"` marker) and build the record; otherwise no
record. -/
def processDatagram (ip : Str) (pt : Nat) (d : Str) (f : FetchResult) :
    Option DiscoveryRecord :=
  match dictGet (parseHeaders d) locKey with
  | none => none
  | some loc =>
    some ⟨ip, pt, parseHeaders d,
      (match f with
        | .success body => body
        | .failure => unavailableMarker),
      loc⟩

/-- Result of `receive_ssdp_responses`: the returned list, how many
`recvfrom` calls were attempted, and whether `sock.close()` ran. -/
structure CollectResult where
  responses : List DiscoveryRecord
  receivesAttempted : Nat
  socketClosed : Bool
deriving DecidableEq

/-- The receive loop of `receive_ssdp_responses` (src/main.py lines 87-141).
The event list holds the outcomes successive `recvfrom` calls would yield
before the `max_wait` deadline; an exhausted list is the deadline expiring.
`socket.timeout` and `socket.error` break the loop (returning `acc`); any
other exception reaches the outer handler, which returns `[]`; the `finally`
closes the socket on every path. -/
def receive_ssdp_responses : List RecvEvent → List DiscoveryRecord → CollectResult
  | [], acc => ⟨acc, 0, true⟩
  | .timeout :: _, acc => ⟨acc, 1, true⟩
  | .sockError :: _, acc => ⟨acc, 1, true⟩
  | .unexpectedError :: _, _ => ⟨[], 1, true⟩
  | .datagram ip pt d f :: rest, acc =>
    let r := receive_ssdp_responses rest (acc ++ (processDatagram ip pt d f).toList)
    ⟨r.responses, r.receivesAttempted + 1, r.socketClosed⟩

/-- The records the datagrams of an event list would produce, in order. -/
def recordsOf (evs : List RecvEvent) : List DiscoveryRecord :=
  evs.filterMap (fun e => match e with
    | .datagram ip pt d f => processDatagram ip pt d f
    | _ => none)

/-! ## Character-level lemmas -/

theorem toNat_upChar_of_lower (c : Char) (h : 97 ≤ c.toNat ∧ c.toNat ≤ 122) :
    (upChar c).toNat = c.toNat - 32 := by
  unfold upChar
  rw [if_pos h]
  unfold Char.ofNat
  rw [dif_pos (by unfold Nat.isValidChar; omega)]
  rfl

theorem upChar_cases (c : Char) :
    (upChar c = c ∧ ¬(97 ≤ c.toNat ∧ c.toNat ≤ 122)) ∨
    ((upChar c).toNat = c.toNat - 32 ∧ (97 ≤ c.toNat ∧ c.toNat ≤ 122)) := by
  by_cases h : 97 ≤ c.toNat ∧ c.toNat ≤ 122
  · exact Or.inr ⟨toNat_upChar_of_lower c h, h⟩
  · exact Or.inl ⟨by unfold upChar; rw [if_neg h], h⟩

theorem upChar_idem (c : Char) : upChar (upChar c) = upChar c := by
  rcases upChar_cases c with ⟨he, hn⟩ | ⟨ht, hr⟩
  · rw [he, he]
  · rcases upChar_cases (upChar c) with ⟨he2, _⟩ | ⟨_, hr2⟩
    · exact he2
    · omega

theorem isPySpace_upChar (c : Char) : isPySpace (upChar c) = isPySpace c := by
  rcases upChar_cases c with ⟨he, _⟩ | ⟨ht, hr⟩
  · rw [he]
  · simp only [isPySpace, ht]
    exact decide_eq_decide.mpr (by omega)

theorem isLineBreakChar_upChar (c : Char) :
    isLineBreakChar (upChar c) = isLineBreakChar c := by
  rcases upChar_cases c with ⟨he, _⟩ | ⟨ht, hr⟩
  · rw [he]
  · simp only [isLineBreakChar, ht]
    exact decide_eq_decide.mpr (by omega)

theorem upChar_ne_colon (c : Char) (h : c ≠ ':') : upChar c ≠ ':' := by
  rcases upChar_cases c with ⟨he, _⟩ | ⟨ht, hr⟩
  · rw [he]; exact h
  · intro hc
    have : (upChar c).toNat = 58 := by rw [hc]; rfl
    omega

theorem pyUpper_idem (s : Str) : pyUpper (pyUpper s) = pyUpper s := by
  simp only [pyUpper, List.map_map]
  exact List.map_congr_left (fun c _ => upChar_idem c)

/-! ## Strip lemmas -/

theorem stripLeft_idem (s : Str) : stripLeft (stripLeft s) = stripLeft s :=
  List.dropWhile_idempotent isPySpace s

theorem stripRight_idem (s : Str) : stripRight (stripRight s) = stripRight s := by
  simp only [stripRight, List.reverse_reverse]
  rw [List.dropWhile_idempotent]

theorem dropWhile_append_singleton (p : Char → Bool) (a : Char) (xs : Str)
    (h : p a = false) : ∃ ys, (xs ++ [a]).dropWhile p = ys ++ [a] := by
  induction xs with
  | nil => exact ⟨[], by simp [List.dropWhile, h]⟩
  | cons x xs ih =>
    by_cases hx : p x = true
    · simpa [List.dropWhile, hx] using ih
    · exact ⟨x :: xs, by simp [List.dropWhile, hx]⟩

theorem stripLeft_stripRight (s : Str) (h : stripLeft s = s) :
    stripLeft (stripRight s) = stripRight s := by
  cases s with
  | nil => rfl
  | cons a s =>
    have ha : isPySpace a = false := by
      by_contra hc
      simp only [Bool.not_eq_false] at hc
      simp only [stripLeft, List.dropWhile, hc] at h
      have hlen : (s.dropWhile isPySpace).length = s.length + 1 := by rw [h]; rfl
      have hle := (List.dropWhile_sublist (l := s) isPySpace).length_le
      omega
    obtain ⟨ys, hys⟩ := dropWhile_append_singleton isPySpace a s.reverse ha
    simp only [stripRight, List.reverse_cons, hys, List.reverse_append,
      List.reverse_cons, List.reverse_nil, List.nil_append, List.singleton_append]
    simp [stripLeft, List.dropWhile, ha]

theorem strip_idem (s : Str) : strip (strip s) = strip s := by
  unfold strip
  rw [stripLeft_stripRight (stripLeft s) (stripLeft_idem s), stripRight_idem]

theorem strip_cons_space (c : Char) (s : Str) (h : isPySpace c = true) :
    strip (c :: s) = strip s := by
  simp [strip, stripLeft, List.dropWhile, h]

theorem mem_stripLeft (c : Char) (s : Str) (h : c ∈ stripLeft s) : c ∈ s :=
  List.Sublist.mem h (List.dropWhile_sublist isPySpace)

theorem mem_strip (c : Char) (s : Str) (h : c ∈ strip s) : c ∈ s := by
  have h1 : c ∈ (stripLeft s).reverse.dropWhile isPySpace := by
    simpa [strip, stripRight] using h
  have h2 : c ∈ (stripLeft s).reverse := List.Sublist.mem h1 (List.dropWhile_sublist isPySpace)
  exact mem_stripLeft c s (by simpa using h2)

theorem strip_pyUpper (s : Str) : strip (pyUpper s) = pyUpper (strip s) := by
  have hcomp : (isPySpace ∘ upChar) = isPySpace := funext isPySpace_upChar
  simp only [strip, stripLeft, stripRight, pyUpper, List.dropWhile_map, hcomp,
    List.map_reverse]
  congr 1
  rw [← List.map_reverse, List.dropWhile_map, hcomp]

/-! ## splitFirstColon lemmas -/

theorem splitFirstColon_eq_some (l : Str) (k v : Str)
    (h : splitFirstColon l = some (k, v)) :
    l = k ++ ':' :: v ∧ ∀ c ∈ k, c ≠ ':' := by
  induction l generalizing k with
  | nil => simp [splitFirstColon] at h
  | cons a l ih =>
    by_cases ha : a = ':'
    · subst ha
      simp [splitFirstColon] at h
      obtain ⟨h1, h2⟩ := h
      subst h1; subst h2
      simp
    · simp only [splitFirstColon, if_neg ha, Option.map_eq_some'] at h
      obtain ⟨⟨k1, v1⟩, hp, heq⟩ := h
      simp only [Prod.mk.injEq] at heq
      obtain ⟨hk, hv⟩ := heq
      subst hv
      obtain ⟨hl, hnc⟩ := ih k1 hp
      subst hl
      refine ⟨by rw [← hk]; simp, ?_⟩
      intro c hc
      rw [← hk] at hc
      rcases List.mem_cons.mp hc with rfl | hc
      · exact ha
      · exact hnc c hc

theorem splitFirstColon_append (k v : Str) (h : ∀ c ∈ k, c ≠ ':') :
    splitFirstColon (k ++ ':' :: v) = some (k, v) := by
  induction k with
  | nil => simp [splitFirstColon]
  | cons a k ih =>
    have ha : a ≠ ':' := h a (by simp)
    simp only [List.cons_append, splitFirstColon, if_neg ha, List.append_eq]
    rw [ih (fun c hc => h c (by simp [hc]))]
    rfl

/-! ## splitlines lemmas -/

theorem splitlinesGo_crlf (rest acc : Str) :
    splitlinesGo ('\r' :: '\n' :: rest) acc = acc.reverse :: splitlinesGo rest [] := rfl

theorem splitlinesGo_cons_nobreak (c : Char) (rest acc : Str)
    (h : isLineBreakChar c = false) :
    splitlinesGo (c :: rest) acc = splitlinesGo rest (c :: acc) := by
  have hc : c ≠ '\r' := by
    rintro rfl
    simp [isLineBreakChar] at h
  rw [splitlinesGo.eq_def]
  split
  · rename_i heq
    exact absurd heq (by simp)
  · rename_i heq
    rw [List.cons.injEq] at heq
    exact absurd heq.1 hc
  · rename_i c2 rest2 heq
    rw [List.cons.injEq] at heq
    obtain ⟨rfl, rfl⟩ := heq
    rw [if_neg (by simp [h])]

theorem splitlinesGo_cons_break (c : Char) (rest acc : Str)
    (hbr : isLineBreakChar c = true)
    (hne : ∀ r2, c = '\r' → rest = '\n' :: r2 → False) :
    splitlinesGo (c :: rest) acc = acc.reverse :: splitlinesGo rest [] := by
  rw [splitlinesGo.eq_def]
  split
  · rename_i heq
    exact absurd heq (by simp)
  · rename_i heq
    rw [List.cons.injEq] at heq
    exact (hne _ heq.1 heq.2).elim
  · rename_i c2 rest2 heq
    rw [List.cons.injEq] at heq
    obtain ⟨rfl, rfl⟩ := heq
    rw [if_pos hbr]

theorem splitlinesGo_no_break (s acc : Str) :
    (∀ c ∈ acc, isLineBreakChar c = false) →
    ∀ l ∈ splitlinesGo s acc, ∀ c ∈ l, isLineBreakChar c = false := by
  induction s, acc using splitlinesGo.induct with
  | case1 acc he =>
    intro _ l hl
    rw [splitlinesGo.eq_def] at hl
    simp [he] at hl
  | case2 acc he =>
    intro hacc l hl c hc
    rw [splitlinesGo.eq_def] at hl
    simp only [List.isEmpty_iff] at he
    simp only [he, if_neg, List.isEmpty_iff, List.mem_singleton] at hl
    split at hl
    · simp at hl
    · rw [List.mem_singleton] at hl
      subst hl
      exact hacc c (by simpa using hc)
  | case3 rest acc ih =>
    intro hacc l hl c hc
    rw [splitlinesGo_crlf] at hl
    rcases List.mem_cons.mp hl with rfl | hl
    · exact hacc c (by simpa using hc)
    · exact ih (by simp) l hl c hc
  | case4 c0 rest acc hne hbr ih =>
    intro hacc l hl c hc
    rw [splitlinesGo_cons_break c0 rest acc hbr (fun r2 h1 h2 => hne r2 h1 h2)] at hl
    rcases List.mem_cons.mp hl with rfl | hl
    · exact hacc c (by simpa using hc)
    · exact ih (by simp) l hl c hc
  | case5 c0 rest acc hne hbr ih =>
    intro hacc l hl c hc
    have hb : isLineBreakChar c0 = false := by
      cases hx : isLineBreakChar c0
      · rfl
      · exact absurd hx hbr
    rw [splitlinesGo_cons_nobreak c0 rest acc hb] at hl
    refine ih ?_ l hl c hc
    intro x hx
    rcases List.mem_cons.mp hx with rfl | hx
    · exact hb
    · exact hacc x hx

theorem splitlines_no_break (s : Str) :
    ∀ l ∈ splitlines s, ∀ c ∈ l, isLineBreakChar c = false :=
  splitlinesGo_no_break s [] (by simp)

theorem splitlinesGo_append_line (l : Str) (rest acc : Str)
    (h : ∀ c ∈ l, isLineBreakChar c = false) :
    splitlinesGo (l ++ '\r' :: '\n' :: rest) acc =
      (acc.reverse ++ l) :: splitlinesGo rest [] := by
  induction l generalizing acc with
  | nil => simp [splitlinesGo_crlf]
  | cons a l ih =>
    have ha : isLineBreakChar a = false := h a (by simp)
    rw [List.cons_append, splitlinesGo_cons_nobreak a _ acc ha,
      ih (a :: acc) (fun c hc => h c (by simp [hc]))]
    simp

/-! ## dict lemmas -/

theorem dictGet_cons (p : Str × Str) (m : List (Str × Str)) (q : Str) :
    dictGet (p :: m) q = if p.1 = q then some p.2 else dictGet m q := by
  by_cases hq : p.1 = q
  · simp [dictGet, List.find?, hq]
  · simp [dictGet, List.find?, hq]

theorem dictSet_cons_ne (p : Str × Str) (m : List (Str × Str)) (k v : Str)
    (hp : p.1 ≠ k) : dictSet (p :: m) k v = p :: dictSet m k v := by
  by_cases hm : m.any (fun q => q.1 = k)
  · simp [dictSet, hp, hm]
  · simp [dictSet, hp, hm]

theorem dictSet_cons_eq (p : Str × Str) (m : List (Str × Str)) (k v : Str)
    (hp : p.1 = k) :
    dictSet (p :: m) k v = (k, v) :: m.map (fun q => if q.1 = k then (k, v) else q) := by
  simp [dictSet, hp]

theorem dictGet_map_set (m : List (Str × Str)) (k v q : Str) (h : q ≠ k) :
    dictGet (m.map (fun r => if r.1 = k then (k, v) else r)) q = dictGet m q := by
  induction m with
  | nil => rfl
  | cons r m ih =>
    by_cases hr : r.1 = k
    · rw [List.map_cons, if_pos hr, dictGet_cons, dictGet_cons, if_neg (by simp; exact fun he => h he.symm),
        if_neg (by rw [hr]; exact fun he => h he.symm)]
      exact ih
    · rw [List.map_cons, if_neg hr, dictGet_cons, dictGet_cons]
      by_cases hq : r.1 = q
      · rw [if_pos hq, if_pos hq]
      · rw [if_neg hq, if_neg hq]
        exact ih

theorem dictGet_dictSet_self (m : List (Str × Str)) (k v : Str) :
    dictGet (dictSet m k v) k = some v := by
  induction m with
  | nil => simp [dictSet, dictGet, List.find?]
  | cons p m ih =>
    by_cases hp : p.1 = k
    · rw [dictSet_cons_eq p m k v hp, dictGet_cons, if_pos rfl]
    · rw [dictSet_cons_ne p m k v hp, dictGet_cons, if_neg hp]
      exact ih

theorem dictGet_dictSet_ne (m : List (Str × Str)) (k q v : Str) (h : q ≠ k) :
    dictGet (dictSet m k v) q = dictGet m q := by
  induction m with
  | nil =>
    have hk : k ≠ q := fun he => h he.symm
    simp [dictSet, dictGet, List.find?, hk]
  | cons p m ih =>
    by_cases hp : p.1 = k
    · rw [dictSet_cons_eq p m k v hp, dictGet_cons,
        if_neg (by exact fun he : k = q => h he.symm), dictGet_map_set m k v q h,
        dictGet_cons, if_neg (by rw [hp]; exact fun he => h he.symm)]
    · rw [dictSet_cons_ne p m k v hp, dictGet_cons, dictGet_cons]
      by_cases hq : p.1 = q
      · rw [if_pos hq, if_pos hq]
      · rw [if_neg hq, if_neg hq]
        exact ih

theorem mem_dictSet (p : Str × Str) (m : List (Str × Str)) (k v : Str)
    (h : p ∈ dictSet m k v) : p ∈ m ∨ p = (k, v) := by
  unfold dictSet at h
  split at h
  · rw [List.mem_map] at h
    obtain ⟨q, hq, hpq⟩ := h
    by_cases hk : q.1 = k
    · rw [if_pos hk] at hpq
      exact Or.inr hpq.symm
    · rw [if_neg hk] at hpq
      exact Or.inl (hpq ▸ hq)
  · rw [List.mem_append, List.mem_singleton] at h
    exact h

theorem nodupKeys_dictSet (m : List (Str × Str)) (k v : Str)
    (h : (m.map Prod.fst).Nodup) : ((dictSet m k v).map Prod.fst).Nodup := by
  unfold dictSet
  split
  · have : (fun r : Str × Str => (if r.1 = k then (k, v) else r).1) = Prod.fst := by
      funext r
      by_cases hr : r.1 = k
      · rw [if_pos hr, hr]
      · rw [if_neg hr]
    rw [List.map_map]
    simpa [Function.comp_def, this] using h
  · rename_i hany
    rw [List.map_append, List.nodup_append]
    refine ⟨h, by simp, ?_⟩
    intro x hx hy
    simp only [List.map_cons, List.map_nil, List.mem_singleton] at hy
    subst hy
    rw [List.mem_map] at hx
    obtain ⟨q, hq, hqk⟩ := hx
    exact hany (by simp only [List.any_eq_true, decide_eq_true_eq]; exact ⟨q, hq, hqk⟩)

/-! ## Entries produced by the parser -/

/-- Shape invariant of every entry the header parser can produce: the key is
upper-cased, stripped, colon-free and break-free; the value is stripped and
break-free. -/
def GoodEntry (p : Str × Str) : Prop :=
  pyUpper p.1 = p.1 ∧ strip p.1 = p.1 ∧ (∀ c ∈ p.1, c ≠ ':') ∧
  (∀ c ∈ p.1, isLineBreakChar c = false) ∧
  strip p.2 = p.2 ∧ ∀ c ∈ p.2, isLineBreakChar c = false

theorem goodEntry_new (k0 v0 : Str)
    (hk : ∀ c ∈ k0, isLineBreakChar c = false) (hknc : ∀ c ∈ k0, c ≠ ':')
    (hv : ∀ c ∈ v0, isLineBreakChar c = false) :
    GoodEntry (pyUpper (strip k0), strip v0) := by
  refine ⟨pyUpper_idem (strip k0), ?_, ?_, ?_, strip_idem v0, ?_⟩
  · rw [strip_pyUpper, strip_idem]
  · intro c hc
    rw [pyUpper, List.mem_map] at hc
    obtain ⟨c0, hc0, rfl⟩ := hc
    exact upChar_ne_colon c0 (hknc c0 (mem_strip c0 k0 hc0))
  · intro c hc
    rw [pyUpper, List.mem_map] at hc
    obtain ⟨c0, hc0, rfl⟩ := hc
    rw [isLineBreakChar_upChar]
    exact hk c0 (mem_strip c0 k0 hc0)
  · intro c hc
    exact hv c (mem_strip c v0 hc)

theorem parseLine_eq_none (m : List (Str × Str)) (line : Str)
    (h : splitFirstColon line = none) : parseLine m line = m := by
  unfold parseLine
  rw [h]

theorem parseLine_eq_some (m : List (Str × Str)) (line k v : Str)
    (h : splitFirstColon line = some (k, v)) :
    parseLine m line = dictSet m (pyUpper (strip k)) (strip v) := by
  unfold parseLine
  rw [h]

theorem parseLine_good (m : List (Str × Str)) (line : Str)
    (hline : ∀ c ∈ line, isLineBreakChar c = false)
    (hm : ∀ p ∈ m, GoodEntry p) :
    ∀ p ∈ parseLine m line, GoodEntry p := by
  intro p hp
  cases hsp : splitFirstColon line with
  | none =>
    rw [parseLine_eq_none m line hsp] at hp
    exact hm p hp
  | some q =>
    rw [parseLine_eq_some m line q.1 q.2 (by rw [hsp])] at hp
    rcases mem_dictSet p m _ _ hp with h | h
    · exact hm p h
    · subst h
      obtain ⟨hl, hnc⟩ := splitFirstColon_eq_some line q.1 q.2 (by rw [hsp])
      refine goodEntry_new q.1 q.2 ?_ hnc ?_
      · intro c hc
        exact hline c (by rw [hl]; exact List.mem_append_left _ hc)
      · intro c hc
        exact hline c (by rw [hl]; exact List.mem_append_right _ (by simp [hc]))

theorem foldl_parseLine_good (lines : List Str) (m : List (Str × Str))
    (hl : ∀ line ∈ lines, ∀ c ∈ line, isLineBreakChar c = false)
    (hm : ∀ p ∈ m, GoodEntry p) :
    ∀ p ∈ lines.foldl parseLine m, GoodEntry p := by
  induction lines generalizing m with
  | nil => exact hm
  | cons line lines ih =>
    rw [List.foldl_cons]
    exact ih (parseLine m line) (fun l hl2 => hl l (List.mem_cons_of_mem line hl2))
      (parseLine_good m line (hl line (by simp)) hm)

theorem parseHeaders_good (s : Str) : ∀ p ∈ parseHeaders s, GoodEntry p :=
  foldl_parseLine_good (splitlines s) [] (splitlines_no_break s) (by simp)

theorem parseLine_nodup (m : List (Str × Str)) (line : Str)
    (h : (m.map Prod.fst).Nodup) : ((parseLine m line).map Prod.fst).Nodup := by
  cases hsp : splitFirstColon line with
  | none => rw [parseLine_eq_none m line hsp]; exact h
  | some q =>
    rw [parseLine_eq_some m line q.1 q.2 (by rw [hsp])]
    exact nodupKeys_dictSet m _ _ h

theorem foldl_parseLine_nodup (lines : List Str) (m : List (Str × Str))
    (h : (m.map Prod.fst).Nodup) :
    ((lines.foldl parseLine m).map Prod.fst).Nodup := by
  induction lines generalizing m with
  | nil => exact h
  | cons line lines ih =>
    rw [List.foldl_cons]
    exact ih (parseLine m line) (parseLine_nodup m line h)

theorem parseHeaders_nodup (s : Str) : ((parseHeaders s).map Prod.fst).Nodup :=
  foldl_parseLine_nodup (splitlines s) [] (by simp)

/-! ## Rebuilding a parsed mapping (round trip for idempotence) -/

theorem dictSet_eq_append (m : List (Str × Str)) (k v : Str)
    (h : ∀ p ∈ m, p.1 ≠ k) : dictSet m k v = m ++ [(k, v)] := by
  unfold dictSet
  rw [if_neg]
  intro hc
  simp only [List.any_eq_true, decide_eq_true_eq] at hc
  obtain ⟨p, hp, hpk⟩ := hc
  exact h p hp hpk

theorem foldl_dictSet_eq_append (m acc : List (Str × Str))
    (h : ((acc ++ m).map Prod.fst).Nodup) :
    m.foldl (fun a p => dictSet a p.1 p.2) acc = acc ++ m := by
  induction m generalizing acc with
  | nil => simp
  | cons p m ih =>
    rw [List.foldl_cons]
    have hk : ∀ q ∈ acc, q.1 ≠ p.1 := by
      intro q hq he
      have h1 : q.1 ∈ acc.map Prod.fst := List.mem_map_of_mem Prod.fst hq
      have h2 : q.1 ∈ (p :: m).map Prod.fst := by simp [he]
      rw [List.map_append, List.nodup_append] at h
      exact h.2.2 h1 h2
    rw [dictSet_eq_append acc p.1 p.2 hk]
    have hshift : (((acc ++ [p]) ++ m).map Prod.fst).Nodup := by
      simpa [List.append_assoc] using h
    rw [ih (acc ++ [p]) hshift]
    simp

theorem splitlinesGo_entry (p : Str × Str) (rest : Str)
    (hk : ∀ c ∈ p.1, isLineBreakChar c = false)
    (hv : ∀ c ∈ p.2, isLineBreakChar c = false) :
    splitlinesGo (((p.1 ++ (':' :: ' ' :: p.2)) ++ ['\r', '\n']) ++ rest) [] =
      (p.1 ++ ':' :: ' ' :: p.2) :: splitlinesGo rest [] := by
  have hline : ∀ c ∈ p.1 ++ ':' :: ' ' :: p.2, isLineBreakChar c = false := by
    intro c hc
    rcases List.mem_append.mp hc with hc | hc
    · exact hk c hc
    · rcases List.mem_cons.mp hc with rfl | hc
      · decide
      · rcases List.mem_cons.mp hc with rfl | hc
        · decide
        · exact hv c hc
  have hshape : ((p.1 ++ (':' :: ' ' :: p.2)) ++ ['\r', '\n']) ++ rest
      = (p.1 ++ ':' :: ' ' :: p.2) ++ ('\r' :: '\n' :: rest) := by
    simp [List.append_assoc]
  rw [hshape, splitlinesGo_append_line _ rest [] hline]
  simp

theorem splitlines_render (m : List (Str × Str)) (h : ∀ p ∈ m, GoodEntry p) :
    splitlines (renderHeaders m) = m.map (fun p => p.1 ++ ':' :: ' ' :: p.2) := by
  induction m with
  | nil => rfl
  | cons p m ih =>
    have hp := h p (by simp)
    have step : splitlines (renderHeaders (p :: m)) =
        (p.1 ++ ':' :: ' ' :: p.2) :: splitlines (renderHeaders m) := by
      unfold splitlines renderHeaders
      rw [List.map_cons, List.flatten_cons]
      exact splitlinesGo_entry p _ hp.2.2.2.1 hp.2.2.2.2.2
    rw [step, ih (fun q hq => h q (by simp [hq])), List.map_cons]

theorem parseLine_entry (m : List (Str × Str)) (p : Str × Str) (hp : GoodEntry p) :
    parseLine m (p.1 ++ ':' :: ' ' :: p.2) = dictSet m p.1 p.2 := by
  rw [parseLine_eq_some m _ p.1 (' ' :: p.2)
      (splitFirstColon_append p.1 (' ' :: p.2) hp.2.2.1),
    strip_cons_space ' ' p.2 (by decide), hp.2.2.2.2.1, hp.2.1, hp.1]

theorem parseHeaders_render_self (s : Str) :
    parseHeaders (renderHeaders (parseHeaders s)) = parseHeaders s := by
  have hgood := parseHeaders_good s
  have hnd := parseHeaders_nodup s
  show (splitlines (renderHeaders (parseHeaders s))).foldl parseLine [] = parseHeaders s
  rw [splitlines_render (parseHeaders s) hgood, List.foldl_map]
  have hfold : (parseHeaders s).foldl
      (fun a p => parseLine a (p.1 ++ ':' :: ' ' :: p.2)) [] =
      (parseHeaders s).foldl (fun a p => dictSet a p.1 p.2) [] :=
    List.foldl_ext _ _ [] (fun a p hp => parseLine_entry a p (hgood p hp))
  rw [hfold]
  exact foldl_dictSet_eq_append (parseHeaders s) [] (by simpa using hnd)

/-! ## Last-seen value (duplicate-key policy) -/

/-- The value a single line contributes to a given normalised key `k`:
`some (strip value)` when the line has a colon and its normalised key is `k`. -/
def keyLineValue (k : Str) (line : Str) : Option Str :=
  match splitFirstColon line with
  | none => none
  | some q => if pyUpper (strip q.1) = k then some (strip q.2) else none

theorem dictGet_foldl_parseLine (lines : List Str) (m : List (Str × Str)) (k : Str) :
    dictGet (lines.foldl parseLine m) k =
      ((lines.filterMap (keyLineValue k)).getLast?).or (dictGet m k) := by
  induction lines generalizing m with
  | nil => simp
  | cons line lines ih =>
    rw [List.foldl_cons]
    cases hsp : splitFirstColon line with
    | none =>
      rw [parseLine_eq_none m line hsp]
      have hkv : keyLineValue k line = none := by unfold keyLineValue; rw [hsp]
      rw [List.filterMap_cons_none hkv]
      exact ih m
    | some q =>
      rw [parseLine_eq_some m line q.1 q.2 (by rw [hsp])]
      by_cases hk : pyUpper (strip q.1) = k
      · have hkv : keyLineValue k line = some (strip q.2) := by
          unfold keyLineValue
          rw [hsp]
          exact if_pos hk
        rw [List.filterMap_cons_some hkv, ih, hk, List.getLast?_cons]
        cases hv : (lines.filterMap (keyLineValue k)).getLast? with
        | none => simp [dictGet_dictSet_self]
        | some w => simp
      · have hkv : keyLineValue k line = none := by
          unfold keyLineValue
          rw [hsp]
          exact if_neg hk
        rw [List.filterMap_cons_none hkv, ih,
          dictGet_dictSet_ne m _ k _ (fun he => hk he.symm)]

/-! ## Receive-loop lemmas -/

theorem recordsOf_cons_datagram (ip : Str) (pt : Nat) (d : Str) (f : FetchResult)
    (evs : List RecvEvent) :
    recordsOf (RecvEvent.datagram ip pt d f :: evs) =
      (processDatagram ip pt d f).toList ++ recordsOf evs := by
  unfold recordsOf
  rw [List.filterMap_cons]
  cases hp : processDatagram ip pt d f <;> simp [hp]

theorem receive_append_datagrams (pre evs : List RecvEvent) (acc : List DiscoveryRecord)
    (h : ∀ e ∈ pre, ∃ ip pt d f, e = RecvEvent.datagram ip pt d f) :
    receive_ssdp_responses (pre ++ evs) acc =
      ⟨(receive_ssdp_responses evs (acc ++ recordsOf pre)).responses,
       (receive_ssdp_responses evs (acc ++ recordsOf pre)).receivesAttempted + pre.length,
       (receive_ssdp_responses evs (acc ++ recordsOf pre)).socketClosed⟩ := by
  induction pre generalizing acc with
  | nil => simp [recordsOf]
  | cons e pre ih =>
    obtain ⟨ip, pt, d, f, rfl⟩ := h e (by simp)
    rw [List.cons_append]
    simp only [receive_ssdp_responses]
    rw [ih (acc ++ (processDatagram ip pt d f).toList)
      (fun e2 he2 => h e2 (List.mem_cons_of_mem _ he2))]
    rw [recordsOf_cons_datagram]
    simp only [List.append_assoc, List.length_cons]
    refine congrArg (fun n => CollectResult.mk _ n _) ?_
    omega

theorem receive_no_record (evs : List RecvEvent) (acc : List DiscoveryRecord)
    (h : ∀ ip pt d f, RecvEvent.datagram ip pt d f ∈ evs → processDatagram ip pt d f = none) :
    (receive_ssdp_responses evs acc).responses = acc ∨
    (receive_ssdp_responses evs acc).responses = [] := by
  induction evs generalizing acc with
  | nil => exact Or.inl rfl
  | cons e evs ih =>
    cases e with
    | timeout => exact Or.inl rfl
    | sockError => exact Or.inl rfl
    | unexpectedError => exact Or.inr rfl
    | datagram ip pt d f =>
      simp only [receive_ssdp_responses]
      rw [h ip pt d f (by simp)]
      simpa using ih acc (fun ip2 pt2 d2 f2 he => h ip2 pt2 d2 f2 (List.mem_cons_of_mem _ he))

theorem mem_responses_of_mem_acc (evs : List RecvEvent) (acc : List DiscoveryRecord)
    (r : DiscoveryRecord) (hne : RecvEvent.unexpectedError ∉ evs) (hr : r ∈ acc) :
    r ∈ (receive_ssdp_responses evs acc).responses := by
  induction evs generalizing acc with
  | nil => exact hr
  | cons e evs ih =>
    cases e with
    | timeout => exact hr
    | sockError => exact hr
    | unexpectedError => exact absurd (by simp) hne
    | datagram ip pt d f =>
      simp only [receive_ssdp_responses]
      exact ih (acc ++ (processDatagram ip pt d f).toList)
        (fun hc => hne (List.mem_cons_of_mem _ hc)) (List.mem_append_left _ hr)

theorem responses_provenance (evs : List RecvEvent) (acc : List DiscoveryRecord)
    (r : DiscoveryRecord) (hr : r ∈ (receive_ssdp_responses evs acc).responses) :
    r ∈ acc ∨ ∃ ip pt d f, RecvEvent.datagram ip pt d f ∈ evs ∧
      processDatagram ip pt d f = some r := by
  induction evs generalizing acc with
  | nil => exact Or.inl hr
  | cons e evs ih =>
    cases e with
    | timeout => exact Or.inl hr
    | sockError => exact Or.inl hr
    | unexpectedError => simp [receive_ssdp_responses] at hr
    | datagram ip pt d f =>
      simp only [receive_ssdp_responses] at hr
      rcases ih (acc ++ (processDatagram ip pt d f).toList) hr with
        hmem | ⟨ip2, pt2, d2, f2, hin, hproc⟩
      · rcases List.mem_append.mp hmem with h1 | h2
        · exact Or.inl h1
        · exact Or.inr ⟨ip, pt, d, f, by simp,
            Option.mem_def.mp (Option.mem_toList.mp h2)⟩
      · exact Or.inr ⟨ip2, pt2, d2, f2, List.mem_cons_of_mem _ hin, hproc⟩

/-! ## Substring containment (used to state the MX-header claims) -/

/-- Boolean prefix test on character lists. -/
def isPrefixOfB : Str → Str → Bool
  | [], _ => true
  | _ :: _, [] => false
  | a :: xs, b :: ys => a == b && isPrefixOfB xs ys

/-- Boolean substring test: does `pat` occur contiguously inside the string? -/
def containsSub (pat : Str) : Str → Bool
  | [] => isPrefixOfB pat []
  | c :: rest => isPrefixOfB pat (c :: rest) || containsSub pat rest

theorem isPrefixOfB_iff (pat s : Str) :
    isPrefixOfB pat s = true ↔ ∃ t : Str, pat ++ t = s := by
  induction pat generalizing s with
  | nil => simp [isPrefixOfB]
  | cons a pat ih =>
    cases s with
    | nil => simp [isPrefixOfB]
    | cons b s =>
      simp only [isPrefixOfB, Bool.and_eq_true, beq_iff_eq, ih, List.cons_append,
        List.cons.injEq]
      constructor
      · rintro ⟨rfl, t, rfl⟩
        exact ⟨t, rfl, rfl⟩
      · rintro ⟨t, rfl, rfl⟩
        exact ⟨rfl, t, rfl⟩

theorem containsSub_iff (pat s : Str) :
    containsSub pat s = true ↔ ∃ a b : Str, a ++ pat ++ b = s := by
  induction s with
  | nil =>
    simp only [containsSub, isPrefixOfB_iff]
    constructor
    · rintro ⟨t, ht⟩
      exact ⟨[], t, by simpa using ht⟩
    · rintro ⟨a, b, hab⟩
      rcases List.append_eq_nil.mp (List.append_eq_nil.mp hab).1 with ⟨rfl, rfl⟩
      exact ⟨b, by simpa using hab⟩
  | cons c rest ih =>
    simp only [containsSub, Bool.or_eq_true, isPrefixOfB_iff, ih]
    constructor
    · rintro (⟨t, ht⟩ | ⟨a, b, rfl⟩)
      · exact ⟨[], t, by simpa using ht⟩
      · exact ⟨c :: a, b, rfl⟩
    · rintro ⟨a, b, hab⟩
      cases a with
      | nil => exact Or.inl ⟨b, by simpa using hab⟩
      | cons a0 a2 =>
        rw [List.cons_append, List.cons_append, List.cons.injEq] at hab
        exact Or.inr ⟨a2, b, hab.2⟩

/-! ## Test fixtures used by the witnesses -/

def ip0 : Str := ("10.0.0.5").toList

def d0 : Str := ("LOCATION: http://x\r\nST: upnp:rootdevice").toList

def body0 : Str := ("<root/>").toList

def ev0 : RecvEvent := RecvEvent.datagram ip0 80 d0 (FetchResult.success body0)

def rec0 : DiscoveryRecord :=
  ⟨ip0, 80,
    [(("LOCATION").toList, ("http://x").toList),
     (("ST").toList, ("upnp:rootdevice").toList)],
    body0, ("http://x").toList⟩

def dNoLoc : Str := ("ST: upnp:rootdevice").toList

def evNoLoc : RecvEvent := RecvEvent.datagram ip0 80 dNoLoc (FetchResult.success body0)

/-! ## The claims -/

theorem ssdp_request_eq (st : Str) :
    ssdp_request st =
      ("M-SEARCH * HTTP/1.1\r\nHOST: 239.255.255.250:1900\r\nMAN: \"ssdp:discover\"\r\nMX: 2\r\nST: ").toList
        ++ st ++ ("\r\n\r\n").toList := by
  have hp : ("M-SEARCH * HTTP/1.1").toList ++ CRLF ++ ("HOST: ").toList ++ SSDP_ADDR ++
      ':' :: (Nat.repr SSDP_PORT).toList ++ CRLF ++ ("MAN: \"ssdp:discover\"").toList ++ CRLF ++
      ("MX: ").toList ++ (Nat.repr SSDP_MX).toList ++ CRLF ++ ("ST: ").toList =
      ("M-SEARCH * HTTP/1.1\r\nHOST: 239.255.255.250:1900\r\nMAN: \"ssdp:discover\"\r\nMX: 2\r\nST: ").toList := by
    decide
  unfold ssdp_request
  rw [hp, List.append_assoc]
  congr 1

/-- C1: for every valid request (positive retries), `send_ssdp_discovery`
issues exactly `retries` datagrams, all addressed to 239.255.255.250:1900,
with pairwise byte-identical payloads, each being the fixed M-SEARCH request
line plus HOST, MAN, MX and ST headers (ST equal to the search target), CRLF
line endings and a CRLF-CRLF terminator. -/
theorem C1_send_retries_fixed_payload (search_target : Str) (retries : Nat)
    (h : 0 < retries) :
    (send_ssdp_discovery search_target retries).length = retries ∧
    (∀ dg ∈ send_ssdp_discovery search_target retries,
      dg.destAddr = ("239.255.255.250").toList ∧ dg.destPort = 1900 ∧
      dg.payload =
        ("M-SEARCH * HTTP/1.1\r\nHOST: 239.255.255.250:1900\r\nMAN: \"ssdp:discover\"\r\nMX: 2\r\nST: ").toList
          ++ search_target ++ ("\r\n\r\n").toList) ∧
    (∀ d1 ∈ send_ssdp_discovery search_target retries,
      ∀ d2 ∈ send_ssdp_discovery search_target retries, d1.payload = d2.payload) := by
  refine ⟨by simp [send_ssdp_discovery], ?_, ?_⟩
  · intro dg hdg
    rw [send_ssdp_discovery, List.mem_map] at hdg
    obtain ⟨i, _, rfl⟩ := hdg
    exact ⟨rfl, rfl, ssdp_request_eq search_target⟩
  · intro d1 h1 d2 h2
    rw [send_ssdp_discovery, List.mem_map] at h1
    rw [send_ssdp_discovery, List.mem_map] at h2
    obtain ⟨i, _, rfl⟩ := h1
    obtain ⟨j, _, rfl⟩ := h2
    rfl

/-- Closed instance of C1 at searchTarget upnp:rootdevice, retries 3. -/
theorem C1_witness :
    0 < 3 ∧
    ((send_ssdp_discovery (("upnp:rootdevice").toList) 3).length = 3 ∧
      (∀ dg ∈ send_ssdp_discovery (("upnp:rootdevice").toList) 3,
        dg.destAddr = ("239.255.255.250").toList ∧ dg.destPort = 1900 ∧
        dg.payload =
          ("M-SEARCH * HTTP/1.1\r\nHOST: 239.255.255.250:1900\r\nMAN: \"ssdp:discover\"\r\nMX: 2\r\nST: ").toList
            ++ ("upnp:rootdevice").toList ++ ("\r\n\r\n").toList) ∧
      (∀ d1 ∈ send_ssdp_discovery (("upnp:rootdevice").toList) 3,
        ∀ d2 ∈ send_ssdp_discovery (("upnp:rootdevice").toList) 3,
          d1.payload = d2.payload)) :=
  ⟨by decide, C1_send_retries_fixed_payload (("upnp:rootdevice").toList) 3 (by decide)⟩

/-- C4 counterexample: with the CLI MX flag (argparse option `-mx`, stored as
`max_wait`) set to 7, the program still sends 3 datagrams and none of their
payloads contains the line `MX: 7` — the MX header comes from the constant
`SSDP_MX = 2`, not from the flag. -/
theorem C4_counterexample_mx_flag_not_in_payload :
    (mainSend ⟨("upnp:rootdevice").toList, 7, 3, false⟩).length = 3 ∧
    (mainSend ⟨("upnp:rootdevice").toList, 7, 3, false⟩).all
      (fun dg => !(containsSub (("MX: 7").toList) dg.payload)) = true := by
  exact ⟨by decide, by decide⟩

/-- C4 amended: whatever the CLI MX flag value, every outbound datagram
carries the constant header line `MX: 2` (the flag only sets the receive
window `max_wait`). -/
theorem C4_amended_payload_mx_constant (a : Args) (h : 0 < a.retries) :
    (mainSend a).length = a.retries ∧
    ∀ dg ∈ mainSend a, ∃ s t : Str, s ++ ("MX: 2\r\n").toList ++ t = dg.payload := by
  refine ⟨by simp [mainSend, send_ssdp_discovery], ?_⟩
  intro dg hdg
  rw [mainSend, send_ssdp_discovery, List.mem_map] at hdg
  obtain ⟨i, _, rfl⟩ := hdg
  refine ⟨("M-SEARCH * HTTP/1.1\r\nHOST: 239.255.255.250:1900\r\nMAN: \"ssdp:discover\"\r\n").toList,
    ("ST: ").toList ++ a.search_target ++ ("\r\n\r\n").toList, ?_⟩
  show _ = ssdp_request a.search_target
  rw [ssdp_request_eq]
  have hpre : ("M-SEARCH * HTTP/1.1\r\nHOST: 239.255.255.250:1900\r\nMAN: \"ssdp:discover\"\r\n").toList
      ++ ("MX: 2\r\n").toList ++ ("ST: ").toList =
      ("M-SEARCH * HTTP/1.1\r\nHOST: 239.255.255.250:1900\r\nMAN: \"ssdp:discover\"\r\nMX: 2\r\nST: ").toList := by
    decide
  rw [← hpre]
  simp [List.append_assoc]

/-- Closed instance of the amended C4 with the MX flag set to 7. -/
theorem C4_amended_witness :
    0 < (3 : Nat) ∧
    ((mainSend ⟨("upnp:rootdevice").toList, 7, 3, false⟩).length = 3 ∧
      ∀ dg ∈ mainSend ⟨("upnp:rootdevice").toList, 7, 3, false⟩,
        ∃ s t : Str, s ++ ("MX: 2\r\n").toList ++ t = dg.payload) :=
  ⟨by decide,
    C4_amended_payload_mx_constant ⟨("upnp:rootdevice").toList, 7, 3, false⟩ (by decide)⟩

/-- C2: a datagram whose parsed headers contain LOCATION is turned into a
record even when the descriptor fetch fails: the record is appended with the
"Unavailable" marker, the loop continues (the failure is never fatal), and as
long as no later unexpected exception occurs the record stays in the result. -/
theorem C2_fetch_failure_keeps_record (ip : Str) (pt : Nat) (d loc : Str)
    (rest : List RecvEvent) (acc : List DiscoveryRecord)
    (h : dictGet (parseHeaders d) locKey = some loc) :
    processDatagram ip pt d FetchResult.failure =
      some ⟨ip, pt, parseHeaders d, unavailableMarker, loc⟩ ∧
    receive_ssdp_responses (RecvEvent.datagram ip pt d FetchResult.failure :: rest) acc =
      ⟨(receive_ssdp_responses rest
          (acc ++ [⟨ip, pt, parseHeaders d, unavailableMarker, loc⟩])).responses,
       (receive_ssdp_responses rest
          (acc ++ [⟨ip, pt, parseHeaders d, unavailableMarker, loc⟩])).receivesAttempted + 1,
       (receive_ssdp_responses rest
          (acc ++ [⟨ip, pt, parseHeaders d, unavailableMarker, loc⟩])).socketClosed⟩ ∧
    (RecvEvent.unexpectedError ∉ rest →
      (⟨ip, pt, parseHeaders d, unavailableMarker, loc⟩ : DiscoveryRecord) ∈
        (receive_ssdp_responses
          (RecvEvent.datagram ip pt d FetchResult.failure :: rest) acc).responses) := by
  have hproc : processDatagram ip pt d FetchResult.failure =
      some ⟨ip, pt, parseHeaders d, unavailableMarker, loc⟩ := by
    unfold processDatagram
    rw [h]
  refine ⟨hproc, ?_, ?_⟩
  · simp only [receive_ssdp_responses, hproc, Option.toList_some]
  · intro hne
    simp only [receive_ssdp_responses, hproc, Option.toList_some]
    exact mem_responses_of_mem_acc rest _ _ hne (by simp)

/-- Closed instance of C2 with a concrete LOCATION-bearing datagram. -/
theorem C2_witness :
    dictGet (parseHeaders d0) locKey = some (("http://x").toList) ∧
    (processDatagram ip0 80 d0 FetchResult.failure =
        some ⟨ip0, 80, parseHeaders d0, unavailableMarker, ("http://x").toList⟩ ∧
      receive_ssdp_responses (RecvEvent.datagram ip0 80 d0 FetchResult.failure :: []) [] =
        ⟨(receive_ssdp_responses []
            ([] ++ [⟨ip0, 80, parseHeaders d0, unavailableMarker, ("http://x").toList⟩])).responses,
         (receive_ssdp_responses []
            ([] ++ [⟨ip0, 80, parseHeaders d0, unavailableMarker, ("http://x").toList⟩])).receivesAttempted + 1,
         (receive_ssdp_responses []
            ([] ++ [⟨ip0, 80, parseHeaders d0, unavailableMarker, ("http://x").toList⟩])).socketClosed⟩ ∧
      (RecvEvent.unexpectedError ∉ ([] : List RecvEvent) →
        (⟨ip0, 80, parseHeaders d0, unavailableMarker, ("http://x").toList⟩ : DiscoveryRecord) ∈
          (receive_ssdp_responses
            (RecvEvent.datagram ip0 80 d0 FetchResult.failure :: []) []).responses)) :=
  ⟨by decide,
    C2_fetch_failure_keeps_record ip0 80 d0 (("http://x").toList) [] [] (by decide)⟩

/-- C3: a socket-level error (other than a timeout) during a receive call
terminates the loop; the collector returns exactly the records gathered so
far, with the socket closed, and no exception escapes (the result is a plain
value). -/
theorem C3_socket_error_partial_result (pre post : List RecvEvent)
    (acc : List DiscoveryRecord)
    (h : ∀ e ∈ pre, ∃ ip pt d f, e = RecvEvent.datagram ip pt d f) :
    receive_ssdp_responses (pre ++ RecvEvent.sockError :: post) acc =
      ⟨acc ++ recordsOf pre, pre.length + 1, true⟩ := by
  rw [receive_append_datagrams pre _ acc h]
  simp [receive_ssdp_responses, Nat.add_comm]

/-- Closed instance of C3: one good datagram, then a socket error. -/
theorem C3_witness :
    (∀ e ∈ [ev0], ∃ ip pt d f, e = RecvEvent.datagram ip pt d f) ∧
    receive_ssdp_responses ([ev0] ++ RecvEvent.sockError :: []) [] =
      ⟨[] ++ recordsOf [ev0], [ev0].length + 1, true⟩ := by
  have hh : ∀ e ∈ [ev0], ∃ ip pt d f, e = RecvEvent.datagram ip pt d f := by
    intro e he
    rw [List.mem_singleton] at he
    subst he
    exact ⟨ip0, 80, d0, FetchResult.success body0, rfl⟩
  exact ⟨hh, C3_socket_error_partial_result [ev0] [] [] hh⟩

/-- C7: a datagram without a LOCATION header produces no record, and when no
received datagram has one the collector returns the empty sequence (it is a
total function, never a failure). -/
theorem C7_no_location_empty_result (evs : List RecvEvent)
    (h : ∀ ip pt d f, RecvEvent.datagram ip pt d f ∈ evs →
      dictGet (parseHeaders d) locKey = none) :
    (∀ ip pt d f, RecvEvent.datagram ip pt d f ∈ evs →
      processDatagram ip pt d f = none) ∧
    (receive_ssdp_responses evs []).responses = [] := by
  have hproc : ∀ ip pt d f, RecvEvent.datagram ip pt d f ∈ evs →
      processDatagram ip pt d f = none := by
    intro ip pt d f he
    unfold processDatagram
    rw [h ip pt d f he]
  refine ⟨hproc, ?_⟩
  rcases receive_no_record evs [] hproc with h1 | h1 <;> exact h1

/-- Closed instance of C7: a LOCATION-less datagram followed by a timeout. -/
theorem C7_witness :
    (∀ ip pt d f, RecvEvent.datagram ip pt d f ∈ [evNoLoc, RecvEvent.timeout] →
      dictGet (parseHeaders d) locKey = none) ∧
    ((∀ ip pt d f, RecvEvent.datagram ip pt d f ∈ [evNoLoc, RecvEvent.timeout] →
      processDatagram ip pt d f = none) ∧
     (receive_ssdp_responses [evNoLoc, RecvEvent.timeout] []).responses = []) := by
  have hh : ∀ ip pt d f, RecvEvent.datagram ip pt d f ∈ [evNoLoc, RecvEvent.timeout] →
      dictGet (parseHeaders d) locKey = none := by
    intro ip pt d f he
    rcases List.mem_cons.mp he with heq | he2
    · have heq2 : RecvEvent.datagram ip pt d f =
          RecvEvent.datagram ip0 80 dNoLoc (FetchResult.success body0) := heq
      injection heq2 with h1 h2 h3 h4
      subst h3
      decide
    · rw [List.mem_singleton] at he2
      exact RecvEvent.noConfusion he2
  exact ⟨hh, C7_no_location_empty_result [evNoLoc, RecvEvent.timeout] hh⟩

/-- C8: as soon as one receive call times out, the loop stops: the result is
the records gathered before the timeout, exactly `pre.length + 1` receives
are attempted, and the events after the timeout are never consumed (the
result does not depend on them). -/
theorem C8_timeout_stops_loop (pre post : List RecvEvent)
    (acc : List DiscoveryRecord)
    (h : ∀ e ∈ pre, ∃ ip pt d f, e = RecvEvent.datagram ip pt d f) :
    receive_ssdp_responses (pre ++ RecvEvent.timeout :: post) acc =
      ⟨acc ++ recordsOf pre, pre.length + 1, true⟩ ∧
    receive_ssdp_responses (pre ++ RecvEvent.timeout :: post) acc =
      receive_ssdp_responses (pre ++ [RecvEvent.timeout]) acc := by
  have h1 : ∀ post2 : List RecvEvent,
      receive_ssdp_responses (pre ++ RecvEvent.timeout :: post2) acc =
        ⟨acc ++ recordsOf pre, pre.length + 1, true⟩ := by
    intro post2
    rw [receive_append_datagrams pre _ acc h]
    simp [receive_ssdp_responses, Nat.add_comm]
  exact ⟨h1 post, by rw [h1 post, h1 []]⟩

/-- Closed instance of C8: a datagram, a timeout, then a further datagram
that is never received. -/
theorem C8_witness :
    (∀ e ∈ [ev0], ∃ ip pt d f, e = RecvEvent.datagram ip pt d f) ∧
    (receive_ssdp_responses ([ev0] ++ RecvEvent.timeout :: [ev0]) [] =
      ⟨[] ++ recordsOf [ev0], [ev0].length + 1, true⟩ ∧
     receive_ssdp_responses ([ev0] ++ RecvEvent.timeout :: [ev0]) [] =
      receive_ssdp_responses ([ev0] ++ [RecvEvent.timeout]) []) := by
  have hh : ∀ e ∈ [ev0], ∃ ip pt d f, e = RecvEvent.datagram ip pt d f := by
    intro e he
    rw [List.mem_singleton] at he
    subst he
    exact ⟨ip0, 80, d0, FetchResult.success body0, rfl⟩
  exact ⟨hh, C8_timeout_stops_loop [ev0] [ev0] [] hh⟩

/-- C9: an exception other than socket.timeout/socket.error inside the loop
reaches the outer handler: the collector returns the empty list, discarding
the records already gathered, while the socket is still closed. -/
theorem C9_unexpected_error_discards_records (pre post : List RecvEvent)
    (acc : List DiscoveryRecord)
    (h : ∀ e ∈ pre, ∃ ip pt d f, e = RecvEvent.datagram ip pt d f) :
    receive_ssdp_responses (pre ++ RecvEvent.unexpectedError :: post) acc =
      ⟨[], pre.length + 1, true⟩ := by
  rw [receive_append_datagrams pre _ acc h]
  simp [receive_ssdp_responses, Nat.add_comm]

/-- Closed instance of C9: a good datagram already collected, then an
unexpected exception; the collected record is discarded. -/
theorem C9_witness :
    (∀ e ∈ [ev0], ∃ ip pt d f, e = RecvEvent.datagram ip pt d f) ∧
    receive_ssdp_responses ([ev0] ++ RecvEvent.unexpectedError :: []) [] =
      ⟨[], [ev0].length + 1, true⟩ := by
  have hh : ∀ e ∈ [ev0], ∃ ip pt d f, e = RecvEvent.datagram ip pt d f := by
    intro e he
    rw [List.mem_singleton] at he
    subst he
    exact ⟨ip0, 80, d0, FetchResult.success body0, rfl⟩
  exact ⟨hh, C9_unexpected_error_discards_records [ev0] [] [] hh⟩

/-- C10: every record the collector returns has a LOCATION key in its headers
whose value equals the record's location field, and its device_description is
either a fetched body carried by some received datagram or the "Unavailable"
marker. -/
theorem C10_record_invariant (evs : List RecvEvent) (r : DiscoveryRecord)
    (hr : r ∈ (receive_ssdp_responses evs []).responses) :
    dictGet r.headers locKey = some r.location ∧
    (r.device_description = unavailableMarker ∨
      ∃ ip pt d, RecvEvent.datagram ip pt d
        (FetchResult.success r.device_description) ∈ evs) := by
  rcases responses_provenance evs [] r hr with hmem | ⟨ip, pt, d, f, hin, hproc⟩
  · simp at hmem
  · unfold processDatagram at hproc
    cases hloc : dictGet (parseHeaders d) locKey with
    | none =>
      rw [hloc] at hproc
      exact absurd hproc (by simp)
    | some loc =>
      rw [hloc] at hproc
      rw [Option.some.injEq] at hproc
      subst hproc
      cases f with
      | success body => exact ⟨by simpa using hloc, Or.inr ⟨ip, pt, d, hin⟩⟩
      | failure => exact ⟨by simpa using hloc, Or.inl rfl⟩

/-- Closed instance of C10 at a concrete successful session. -/
theorem C10_witness :
    rec0 ∈ (receive_ssdp_responses [ev0] []).responses ∧
    (dictGet rec0.headers locKey = some rec0.location ∧
      (rec0.device_description = unavailableMarker ∨
        ∃ ip pt d, RecvEvent.datagram ip pt d
          (FetchResult.success rec0.device_description) ∈ [ev0])) :=
  ⟨by decide, C10_record_invariant [ev0] rec0 (by decide)⟩

/-- C5: header parsing is idempotent (re-parsing the serialised form of a
parsed result reproduces it exactly) and case-insensitive on keys: both
`Location: http://x\r\n` and `LOCATION:http://x` parse to the single entry
LOCATION -> http://x. -/
theorem C5_header_parse_idempotent_case_insensitive :
    (∀ s : Str, parseHeaders (renderHeaders (parseHeaders s)) = parseHeaders s) ∧
    parseHeaders (("Location: http://x\r\n").toList) =
      [(("LOCATION").toList, ("http://x").toList)] ∧
    parseHeaders (("LOCATION:http://x").toList) =
      [(("LOCATION").toList, ("http://x").toList)] :=
  ⟨parseHeaders_render_self, by decide, by decide⟩

/-- C6: duplicate header keys follow the last-value-wins policy: for every
datagram text and normalised key, the parsed mapping holds exactly the value
contributed by the last line whose normalised key matches. -/
theorem C6_duplicate_headers_last_wins (s k : Str) :
    dictGet (parseHeaders s) k =
      ((splitlines s).filterMap (keyLineValue k)).getLast? := by
  show dictGet ((splitlines s).foldl parseLine []) k = _
  rw [dictGet_foldl_parseLine]
  simp [dictGet]

end SSDP
